import Mathlib

/- Shallow embedding of the evtmanager repository: the keyed EventEmitter
   (src/unnamed/part_001) and the single channel MonoEmitter
   (src/deno/monoemitter.ts).

   Two levels of modelling are used, both translated from the source.

   Value level (Mono, EventEmitter): a listener identity is a natural
   number (one number per function object, JS reference inequality x != l
   becoming inequality of numbers), the Map of the keyed emitter becomes a
   total function defaulting to the empty list (an absent entry and a
   stored empty array are observationally identical in every operation of
   the source: getListeners returns a fresh empty array for an absent key,
   addListener treats a present empty array like an absent one because the
   spread of an empty array is empty, removeListener stores an empty array
   for an absent key, emit and emitSync dispatch to nobody in both cases),
   and listener results are supplied by an interpretation function so that
   sync and async dispatch can be compared.

   Reference level (MonoS, EES): JS arrays live in an explicit store
   addressed by numeric ids, because addListener of MonoEmitter pushes in
   place onto the current array while removeListener rebuilds a fresh one,
   and because the accessors return the stored array itself.  Listeners
   are syntactic and may, when invoked by a dispatch, re-enter the emitter
   (add or remove listeners) or be the one shot callback created by wait. -/

/-- Pointwise update of a store, the semantics of writing one slot. -/
def upd {α : Type} (f : Nat → α) (x : Nat) (v : α) : Nat → α :=
  fun y => if y = x then v else f y

/-- The error raised by the limit check of addListener (a TypeError in the
source). -/
inductive EmitterError where
  | limitExceeded
  deriving DecidableEq

/-- Boolean success observer for a fallible operation. -/
def isOkE {α : Type} : Except EmitterError α → Bool
  | .ok _ => true
  | .error _ => false

/-- Promise.all over already settled outcomes: succeeds with the list of
values in order when every entry succeeds, otherwise fails with the first
failure. -/
def promiseAll : List (Except Nat Nat) → Except Nat (List Nat)
  | [] => .ok []
  | .ok v :: rest =>
    match promiseAll rest with
    | .ok vs => .ok (v :: vs)
    | .error e => .error e
  | .error e :: _ => .error e

/-- Result of one listener given the dispatch arguments: the eventual
outcome of the value the listener returns (a resolved or rejected
awaitable, a plain value resolving immediately). -/
abbrev Interp := Nat → List Nat → Except Nat Nat

/-- MonoEmitter (src/deno/monoemitter.ts): one listener array and one
optional limit. -/
structure Mono where
  listeners : List Nat
  maxListenersCount : Option Nat
  deriving DecidableEq

/-- MonoEmitter.listenersCount (lines 90-92). -/
def Mono.listenersCount (m : Mono) : Nat :=
  m.listeners.length

/-- MonoEmitter.addListener (lines 22-25): the guard
if(this.maxListenersCount && (this.maxListenersCount < (this.listenersCount + 1)))
throws, an unset or zero limit is falsy and skips the guard; on success the
listeners are pushed after the existing ones. -/
def Mono.addListener (m : Mono) (ls : List Nat) : Except EmitterError Mono :=
  match m.maxListenersCount with
  | some n =>
    if n ≠ 0 ∧ n < m.listenersCount + 1 then .error .limitExceeded
    else .ok { m with listeners := m.listeners ++ ls }
  | none => .ok { m with listeners := m.listeners ++ ls }

/-- Option valued observer of addListener, for concrete evaluation. -/
def Mono.tryAdd (m : Mono) (ls : List Nat) : Option Mono :=
  match m.addListener ls with
  | .ok m2 => some m2
  | .error _ => none

/-- MonoEmitter.removeListener (lines 54-56): keeps every entry not equal
to the removed listener. -/
def Mono.removeListener (m : Mono) (l : Nat) : Mono :=
  { m with listeners := m.listeners.filter (fun x => x != l) }

/-- MonoEmitter.clear (lines 120-122): replaces the listener array by an
empty one, the limit field is untouched. -/
def Mono.clear (m : Mono) : Mono :=
  { m with listeners := [] }

/-- MonoEmitter.emitSync (lines 74-76): maps the listeners over the
arguments and returns the unawaited results in listener order. -/
def Mono.emitSync (interp : Interp) (m : Mono) (args : List Nat) : List (Except Nat Nat) :=
  m.listeners.map (fun l => interp l args)

/-- MonoEmitter.emit (lines 64-66): Promise.all over the same map. -/
def Mono.emit (interp : Interp) (m : Mono) (args : List Nat) : Except Nat (List Nat) :=
  promiseAll (m.listeners.map (fun l => interp l args))

/-- EventEmitter (src/unnamed/part_001): event name to listener array,
event name to optional limit. -/
structure EventEmitter where
  events : Nat → List Nat
  maxListeners : Nat → Option Nat

/-- EventEmitter.getListeners (lines 93-95): stored array, or empty. -/
def EventEmitter.getListeners (e : EventEmitter) (k : Nat) : List Nat :=
  e.events k

/-- EventEmitter.listenerCount (lines 171-173). -/
def EventEmitter.listenerCount (e : EventEmitter) (k : Nat) : Nat :=
  (e.getListeners k).length

/-- EventEmitter.addListener (lines 28-34): maxCount is the stored limit
plus one (NaN, hence falsy, when no limit is stored, so the none branch
skips the guard; a stored limit n gives the always truthy n + 1), the
guard compares listenerCount + 1 against maxCount; on success the new
listeners are placed before the existing ones. -/
def EventEmitter.addListener (e : EventEmitter) (k : Nat) (ls : List Nat) :
    Except EmitterError EventEmitter :=
  match e.maxListeners k with
  | some n =>
    if e.listenerCount k + 1 > n + 1 then .error .limitExceeded
    else .ok { e with events := upd e.events k (ls ++ e.events k) }
  | none => .ok { e with events := upd e.events k (ls ++ e.events k) }

/-- EventEmitter.removeListener (lines 66-68): stores the filtered array
(or an empty one for an absent key). -/
def EventEmitter.removeListener (e : EventEmitter) (k : Nat) (l : Nat) : EventEmitter :=
  { e with events := upd e.events k ((e.events k).filter (fun x => x != l)) }

/-- EventEmitter.clear (lines 83-85): empties the event map, the limit map
is untouched. -/
def EventEmitter.clear (e : EventEmitter) : EventEmitter :=
  { e with events := fun _ => [] }

/-- EventEmitter.emitSync (lines 115-117). -/
def EventEmitter.emitSync (interp : Interp) (e : EventEmitter) (k : Nat) (args : List Nat) :
    List (Except Nat Nat) :=
  (e.events k).map (fun l => interp l args)

/-- EventEmitter.emit (lines 104-106): Promise.all over the same map. -/
def EventEmitter.emit (interp : Interp) (e : EventEmitter) (k : Nat) (args : List Nat) :
    Except Nat (List Nat) :=
  promiseAll ((e.events k).map (fun l => interp l args))

/-- Count observer of a keyed addListener, for concrete evaluation. -/
def countAfterAdd (e : EventEmitter) (k : Nat) (ls : List Nat) : Option Nat :=
  match e.addListener k ls with
  | .ok e2 => some (e2.listenerCount k)
  | .error _ => none

/-- One registration step of a register and unregister sequence. -/
inductive RegOp where
  | reg (ls : List Nat)
  | unreg (l : Nat)
  deriving DecidableEq

/-- Runs a sequence of register and unregister steps on a MonoEmitter,
recording how many listeners were added and how many occurrences the
removals actually deleted; a failing register aborts the run. -/
def Mono.runOps : Mono → List RegOp → Option (Mono × Nat × Nat)
  | m, [] => some (m, 0, 0)
  | m, .reg ls :: rest =>
    match m.addListener ls with
    | .ok m2 =>
      match Mono.runOps m2 rest with
      | some (m3, a, r) => some (m3, a + ls.length, r)
      | none => none
    | .error _ => none
  | m, .unreg l :: rest =>
    match Mono.runOps (m.removeListener l) rest with
    | some (m3, a, r) => some (m3, a, r + m.listeners.count l)
    | none => none

/-- The same runner on one key of the keyed emitter. -/
def EventEmitter.runOps : EventEmitter → Nat → List RegOp → Option (EventEmitter × Nat × Nat)
  | e, _, [] => some (e, 0, 0)
  | e, k, .reg ls :: rest =>
    match e.addListener k ls with
    | .ok e2 =>
      match EventEmitter.runOps e2 k rest with
      | some (e3, a, r) => some (e3, a + ls.length, r)
      | none => none
    | .error _ => none
  | e, k, .unreg l :: rest =>
    match EventEmitter.runOps (e.removeListener k l) k rest with
    | some (e3, a, r) => some (e3, a, r + (e.events k).count l)
    | none => none

/-- Outcome of the promise a wait call returns: the source only ever calls
resolve, so the states are pending and resolved. -/
inductive PState where
  | pending
  | resolved (args : List Nat)
  deriving DecidableEq

/-- Re-entrant effect a syntactic listener performs on the emitter when it
is invoked. -/
inductive MEff where
  | add (ids : List Nat)
  | remove (i : Nat)
  | noop
  deriving DecidableEq

/-- Syntactic listener of the reference level MonoEmitter model: an inert
function object, a function object that re-enters the emitter, or the one
shot callback a wait call registers. -/
inductive L where
  | base (i : Nat)
  | act (e : MEff)
  | waitCb (pid : Nat)
  deriving DecidableEq

/-- Reference level MonoEmitter: the listener arrays live in a store so
that in place pushes, wholesale replacement and external aliasing are all
expressible.  ref is the array currently held by the private field,
hnext the next fresh array id, promises and fulfilledF the states of the
wait promises and of their fullfilled flags, fault records that a timer
callback threw outside any promise. -/
structure MonoS where
  heap : Nat → List L
  ref : Nat
  hnext : Nat
  maxListenersCount : Option Nat
  promises : Nat → PState
  fulfilledF : Nat → Bool
  pnext : Nat
  fault : Bool

/-- The array currently held by the private listeners field. -/
def MonoS.listS (s : MonoS) : List L :=
  s.heap s.ref

/-- MonoEmitter.listenersCount at the reference level. -/
def MonoS.listenersCountS (s : MonoS) : Nat :=
  s.listS.length

/-- MonoEmitter.addListener at the reference level: same guard as the
value level, then an in place push onto the current array. -/
def MonoS.addListenerS (s : MonoS) (ls : List L) : Except EmitterError MonoS :=
  match s.maxListenersCount with
  | some n =>
    if n ≠ 0 ∧ n < s.listenersCountS + 1 then .error .limitExceeded
    else .ok { s with heap := upd s.heap s.ref (s.heap s.ref ++ ls) }
  | none => .ok { s with heap := upd s.heap s.ref (s.heap s.ref ++ ls) }

/-- MonoEmitter.removeListener at the reference level: filter builds a
fresh array and the private field is redirected to it. -/
def MonoS.removeListenerS (s : MonoS) (l : L) : MonoS :=
  { s with heap := upd s.heap s.hnext ((s.heap s.ref).filter (fun x => x != l)),
           ref := s.hnext,
           hnext := s.hnext + 1 }

/-- resolve of a pending promise: the first resolution wins, a later call
is a no-op. -/
def presolve (p : Nat → PState) (pid : Nat) (args : List Nat) : Nat → PState :=
  match p pid with
  | .pending => upd p pid (.resolved args)
  | .resolved _ => p

/-- Body of the one shot callback a wait call registers (lines 102-106):
filters itself out of the listener array, resolves the promise with the
received arguments and sets the fullfilled flag. -/
def MonoS.invokeWaitCb (s : MonoS) (pid : Nat) (args : List Nat) : MonoS :=
  let s1 := s.removeListenerS (.waitCb pid)
  { s1 with promises := presolve s1.promises pid args,
            fulfilledF := upd s1.fulfilledF pid true }

/-- Invocation of one listener during a dispatch: inert listeners return,
re-entrant ones perform their effect through the real operations, the wait
callback runs its body. -/
def MonoS.invoke (s : MonoS) (args : List Nat) : L → Except EmitterError MonoS
  | .base _ => .ok s
  | .act .noop => .ok s
  | .act (.add ids) => s.addListenerS (ids.map .base)
  | .act (.remove i) => .ok (s.removeListenerS (.base i))
  | .waitCb pid => .ok (s.invokeWaitCb pid args)

/-- The iteration map performs over an array: the index range is fixed
when the map starts, each element is read from the store when it is
visited, a thrown limit error aborts the remaining invocations.  Returns
the final state and the trace of invoked listeners. -/
def MonoS.emitSteps (args : List Nat) (aid : Nat) :
    MonoS → Nat → Nat → Except EmitterError (MonoS × List L)
  | s, _, 0 => .ok (s, [])
  | s, i, k + 1 =>
    match s.invoke args ((s.heap aid).getD i (.base 0)) with
    | .ok s1 =>
      match MonoS.emitSteps args aid s1 (i + 1) k with
      | .ok (s2, tr) => .ok (s2, (s.heap aid).getD i (.base 0) :: tr)
      | .error e => .error e
    | .error e => .error e

/-- MonoEmitter.emitSync (lines 74-76): captures the current array object
and maps over it. -/
def MonoS.emitSyncS (s : MonoS) (args : List Nat) : Except EmitterError (MonoS × List L) :=
  MonoS.emitSteps args s.ref s 0 (s.heap s.ref).length

/-- MonoEmitter.wait (lines 98-115): allocates a fresh pending promise and
pushes the one shot callback directly onto the current array (the push on
line 108 bypasses the limit guard); the optional timer is modelled by
fireTimeout. -/
def MonoS.waitS (s : MonoS) : MonoS × Nat :=
  ({ s with promises := upd s.promises s.pnext .pending,
            fulfilledF := upd s.fulfilledF s.pnext false,
            pnext := s.pnext + 1,
            heap := upd s.heap s.ref (s.heap s.ref ++ [.waitCb s.pnext]) },
   s.pnext)

/-- Body of the setTimeout callback of wait (lines 109-111): when the wait
is not fulfilled it throws in the timer context, a detached fault; it
neither rejects the promise nor removes the callback. -/
def MonoS.fireTimeout (s : MonoS) (pid : Nat) : MonoS :=
  if s.fulfilledF pid then s else { s with fault := true }

/-- The listeners getter (lines 82-84) returns the internal array itself;
modelled as returning its store id. -/
def MonoS.listenersGetter (s : MonoS) : Nat :=
  s.ref

/-- An external caller pushing onto an array it obtained from an accessor:
a mutation of the store the emitter never sees happening. -/
def MonoS.pushOnArr (s : MonoS) (a : Nat) (l : L) : MonoS :=
  { s with heap := upd s.heap a (s.heap a ++ [l]) }

/-- A freshly constructed MonoEmitter. -/
def MonoS.init : MonoS :=
  { heap := fun _ => [],
    ref := 0,
    hnext := 1,
    maxListenersCount := none,
    promises := fun _ => .pending,
    fulfilledF := fun _ => false,
    pnext := 0,
    fault := false }

/-- Final state of a dispatch, the given default when it aborted. -/
def afterEmit (r : Except EmitterError (MonoS × List L)) (d : MonoS) : MonoS :=
  match r with
  | .ok p => p.1
  | .error _ => d

/-- Re-entrant effect of a keyed syntactic listener. -/
inductive KEff where
  | add (ids : List Nat)
  | remove (i : Nat)
  | noop
  deriving DecidableEq

/-- Syntactic listener of the reference level keyed model. -/
inductive KL where
  | base (i : Nat)
  | act (k : Nat) (e : KEff)
  deriving DecidableEq

/-- Reference level EventEmitter: the event map stores array ids, every
internal mutation allocates a fresh array (spread and filter both build
new arrays), so stored arrays are only ever mutated from outside. -/
structure EES where
  heap : Nat → List KL
  events : Nat → Option Nat
  hnext : Nat
  maxL : Nat → Option Nat

/-- The listener array of a key, empty when the key is absent. -/
def EES.getArr (s : EES) (k : Nat) : List KL :=
  match s.events k with
  | some a => s.heap a
  | none => []

/-- EventEmitter.listenerCount at the reference level. -/
def EES.listenerCountK (s : EES) (k : Nat) : Nat :=
  (s.getArr k).length

/-- Stores a freshly allocated array as the entry of a key. -/
def EES.setFresh (s : EES) (k : Nat) (arr : List KL) : EES :=
  { s with heap := upd s.heap s.hnext arr,
           events := upd s.events k (some s.hnext),
           hnext := s.hnext + 1 }

/-- EventEmitter.addListener at the reference level: same guard as the
value level; the spread expression builds a fresh array holding the new
listeners followed by the old ones. -/
def EES.addListenerK (s : EES) (k : Nat) (ls : List KL) : Except EmitterError EES :=
  match s.maxL k with
  | some n =>
    if s.listenerCountK k + 1 > n + 1 then .error .limitExceeded
    else .ok (s.setFresh k (ls ++ s.getArr k))
  | none => .ok (s.setFresh k (ls ++ s.getArr k))

/-- EventEmitter.removeListener at the reference level: filter builds a
fresh array which is stored as the entry of the key. -/
def EES.removeListenerK (s : EES) (k : Nat) (l : KL) : EES :=
  s.setFresh k ((s.getArr k).filter (fun x => x != l))

/-- Invocation of one keyed listener during a dispatch. -/
def EES.invokeK (s : EES) : KL → Except EmitterError EES
  | .base _ => .ok s
  | .act _ .noop => .ok s
  | .act k (.add ids) => s.addListenerK k (ids.map .base)
  | .act k (.remove i) => .ok (s.removeListenerK k (.base i))

/-- Iteration of map over a keyed array, range fixed at the start,
elements read at visit time. -/
def EES.emitStepsK (aid : Nat) : EES → Nat → Nat → Except EmitterError (EES × List KL)
  | s, _, 0 => .ok (s, [])
  | s, i, k + 1 =>
    match s.invokeK ((s.heap aid).getD i (.base 0)) with
    | .ok s1 =>
      match EES.emitStepsK aid s1 (i + 1) k with
      | .ok (s2, tr) => .ok (s2, (s.heap aid).getD i (.base 0) :: tr)
      | .error e => .error e
    | .error e => .error e

/-- EventEmitter.emit and emitSync (lines 104-106, 115-117): both map over
the array of the key; for an absent key nobody is invoked. -/
def EES.emitK (s : EES) (k : Nat) (args : List Nat) : Except EmitterError (EES × List KL) :=
  match s.events k with
  | some aid => EES.emitStepsK aid s 0 (s.heap aid).length
  | none => .ok (s, [])

/-- EventEmitter.getListeners (lines 93-95) returns the stored array
itself when the key is present; the none result stands for the fresh empty
array of the absent case. -/
def EES.getListenersK (s : EES) (k : Nat) : Option Nat :=
  s.events k

/-- External push onto an array obtained from getListeners. -/
def EES.pushOnArr (s : EES) (a : Nat) (l : KL) : EES :=
  { s with heap := upd s.heap a (s.heap a ++ [l]) }

/-- Concrete states for the counterexamples and witnesses. -/
def c1mono : Mono :=
  { listeners := [1], maxListenersCount := some 2 }

def c1e : EventEmitter :=
  { events := fun k => if k = 0 then [1] else [],
    maxListeners := fun k => if k = 0 then some 1 else none }

def c4e : EventEmitter :=
  { events := fun k => if k = 0 then [1] else [],
    maxListeners := fun k => if k = 0 then some 0 else none }

def e0 : EventEmitter :=
  { events := fun _ => [], maxListeners := fun _ => none }

def c3e2 : EventEmitter :=
  match e0.addListener 0 [5] with
  | .ok x => x
  | .error _ => e0

def c5ops : List RegOp :=
  [.reg [1, 1, 2], .unreg 1, .reg [3]]

def c5e2 : EventEmitter :=
  match EventEmitter.runOps e0 0 c5ops with
  | some p => p.1
  | none => e0

def c2s1 : MonoS :=
  (MonoS.init.waitS).1

def c2pid : Nat :=
  (MonoS.init.waitS).2

def c2s2 : MonoS :=
  c2s1.fireTimeout c2pid

def c6s3 : MonoS :=
  afterEmit (c2s2.emitSyncS [7]) c2s2

def c8s : MonoS :=
  { MonoS.init with heap := fun a => if a = 0 then [L.act (.add [5]), L.base 1] else [] }

def c8t : EES :=
  { heap := fun a => if a = 0 then [KL.act 0 (.add [7])] else [],
    events := fun k => if k = 0 then some 0 else none,
    hnext := 1,
    maxL := fun _ => none }

def c9s : EES :=
  { heap := fun a => if a = 0 then [KL.base 1] else [],
    events := fun k => if k = 0 then some 0 else none,
    hnext := 1,
    maxL := fun _ => none }

/-- C1 is refuted on the source: with limit 2 and one registered listener
the single channel emitter accepts a call adding two listeners at once,
although the prospective count 3 exceeds the limit; and with limit 1 and
one registered listener the keyed emitter accepts a further listener,
although the claim demands that registering beyond the Nth fails. -/
theorem C1_counterexample :
    c1mono.tryAdd [2, 3] = some { listeners := [1, 2, 3], maxListenersCount := some 2 }
      ∧ c1mono.listenersCount + 2 > 2
      ∧ c1e.maxListeners 0 = some 1
      ∧ c1e.listenerCount 0 = 1
      ∧ countAfterAdd c1e 0 [2] = some 2 := by
  decide

/-- C1 (amended): the limit guard of register inspects only the current
count plus one and ignores how many listeners the call supplies.  The
single channel emitter with a stored nonzero limit N accepts a call
exactly when the current count is below N (so the Nth single add succeeds
and the next one fails, but one call may push the total past N), and the
keyed emitter with stored limit N accepts exactly when the current count
is at most N (so N plus one listeners can accumulate through single
adds). -/
theorem C1_limit_check_amended :
    (∀ (m : Mono) (n : Nat) (ls : List Nat), m.maxListenersCount = some n → n ≠ 0 →
        (isOkE (m.addListener ls) = true ↔ m.listenersCount < n))
      ∧ (∀ (e : EventEmitter) (k n : Nat) (ls : List Nat), e.maxListeners k = some n →
        (isOkE (e.addListener k ls) = true ↔ e.listenerCount k ≤ n)) := by
  constructor
  · intro m n ls h hn
    simp only [Mono.addListener, h]
    by_cases hc : n ≠ 0 ∧ n < m.listenersCount + 1
    · rw [if_pos hc]
      simp [isOkE]
      omega
    · rw [if_neg hc]
      simp [isOkE]
      rcases not_and_or.mp hc with h1 | h2
      · exact absurd (not_not.mp h1) hn
      · omega
  · intro e k n ls h
    simp only [EventEmitter.addListener, h]
    by_cases hc : e.listenerCount k + 1 > n + 1
    · rw [if_pos hc]
      simp [isOkE]
      omega
    · rw [if_neg hc]
      simp [isOkE]
      omega

/-- C1 witness: with limit 3 and two registered listeners the single
channel add succeeds, and with limit 1 and one registered listener the
keyed add succeeds. -/
theorem C1_witness :
    (isOkE ((Mono.mk [1, 2] (some 3)).addListener [9]) = true ↔ (Mono.mk [1, 2] (some 3)).listenersCount < 3)
      ∧ (isOkE (c1e.addListener 0 [2]) = true ↔ c1e.listenerCount 0 ≤ 1) :=
  ⟨C1_limit_check_amended.1 (Mono.mk [1, 2] (some 3)) 3 [9] rfl (by decide),
   C1_limit_check_amended.2 c1e 0 1 [2] rfl⟩

/-- C3 is refuted on the source: the single channel emitter appends a new
listener after the existing ones, while the claim demands the new group to
land before all previously registered listeners. -/
theorem C3_counterexample :
    (Mono.mk [1] none).tryAdd [2] = some (Mono.mk [1, 2] none)
      ∧ Mono.mk [1, 2] none ≠ Mono.mk [2, 1] none := by
  decide

/-- C3 (amended): both variants add the supplied listeners as one
contiguous group preserving their relative order, but the keyed emitter
places the new group before the existing listeners while the single
channel emitter places it after them. -/
theorem C3_insertion_order_amended :
    (∀ (e : EventEmitter) (k : Nat) (ls : List Nat) (e2 : EventEmitter),
        e.addListener k ls = .ok e2 → e2.events k = ls ++ e.events k)
      ∧ (∀ (m : Mono) (ls : List Nat) (m2 : Mono),
        m.addListener ls = .ok m2 → m2.listeners = m.listeners ++ ls) := by
  constructor
  · intro e k ls e2 h
    revert h
    simp only [EventEmitter.addListener]
    split
    · split
      · intro h
        exact absurd h (by simp)
      · intro h
        injection h with h2
        subst h2
        simp [upd]
    · intro h
      injection h with h2
      subst h2
      simp [upd]
  · intro m ls m2 h
    revert h
    simp only [Mono.addListener]
    split
    · split
      · intro h
        exact absurd h (by simp)
      · intro h
        injection h with h2
        subst h2
        rfl
    · intro h
      injection h with h2
      subst h2
      rfl

/-- C3 witness: a concrete keyed add prepends and a concrete single
channel add appends. -/
theorem C3_witness :
    (e0.addListener 0 [5] = .ok c3e2 ∧ c3e2.events 0 = [5] ++ e0.events 0)
      ∧ ((Mono.mk [1] none).addListener [2] = .ok (Mono.mk [1, 2] none)
          ∧ (Mono.mk [1, 2] none).listeners = (Mono.mk [1] none).listeners ++ [2]) :=
  ⟨⟨rfl, C3_insertion_order_amended.1 e0 0 [5] c3e2 rfl⟩,
   ⟨rfl, C3_insertion_order_amended.2 (Mono.mk [1] none) [2] (Mono.mk [1, 2] none) rfl⟩⟩

/-- C4 is refuted on the source: on the keyed emitter a stored limit of
zero is not unlimited, maxCount becomes the truthy 0 + 1 and a key already
holding one listener rejects every further registration. -/
theorem C4_counterexample :
    c4e.maxListeners 0 = some 0
      ∧ c4e.listenerCount 0 = 1
      ∧ countAfterAdd c4e 0 [2] = none := by
  decide

/-- C4 (amended): an unset limit is unlimited on both variants and a zero
limit is unlimited on the single channel emitter, but on the keyed emitter
a stored zero limit rejects a registration exactly when the key already
holds at least one listener. -/
theorem C4_unlimited_amended :
    (∀ (m : Mono) (ls : List Nat),
        m.maxListenersCount = none ∨ m.maxListenersCount = some 0 →
        isOkE (m.addListener ls) = true)
      ∧ (∀ (e : EventEmitter) (k : Nat) (ls : List Nat), e.maxListeners k = none →
        isOkE (e.addListener k ls) = true)
      ∧ (∀ (e : EventEmitter) (k : Nat) (ls : List Nat), e.maxListeners k = some 0 →
        (isOkE (e.addListener k ls) = true ↔ e.listenerCount k = 0)) := by
  refine ⟨?_, ?_, ?_⟩
  · intro m ls h
    rcases h with h | h <;> simp [Mono.addListener, h, isOkE]
  · intro e k ls h
    simp [EventEmitter.addListener, h, isOkE]
  · intro e k ls h
    have h2 := C1_limit_check_amended.2 e k 0 ls h
    simpa [Nat.le_zero] using h2

/-- C4 witness: a fresh key with no stored limit accepts a registration,
the single channel emitter with a stored zero limit accepts one, and on
the keyed emitter with a stored zero limit the acceptance condition of a
registration is an empty key. -/
theorem C4_witness :
    isOkE ((Mono.mk [1, 2, 3] (some 0)).addListener [4]) = true
      ∧ isOkE (e0.addListener 1 [4]) = true
      ∧ (isOkE (c4e.addListener 0 [2]) = true ↔ c4e.listenerCount 0 = 0) :=
  ⟨C4_unlimited_amended.1 (Mono.mk [1, 2, 3] (some 0)) [4] (Or.inr rfl),
   C4_unlimited_amended.2.1 e0 1 [4] rfl,
   C4_unlimited_amended.2.2 c4e 0 [2] rfl⟩

/-- C10: clear empties every listener list of the keyed emitter and the
listener list of the single channel emitter, while both limit
configurations are untouched and keep governing register calls made after
the clear exactly as on an empty emitter carrying the same limits. -/
theorem C10_clear_preserves_limits :
    (∀ (e : EventEmitter), (EventEmitter.clear e).maxListeners = e.maxListeners
        ∧ ∀ k, (EventEmitter.clear e).listenerCount k = 0)
      ∧ (∀ (e : EventEmitter) (k : Nat) (ls : List Nat),
        (EventEmitter.clear e).addListener k ls
          = EventEmitter.addListener { events := fun _ => [], maxListeners := e.maxListeners } k ls)
      ∧ (∀ (m : Mono), (Mono.clear m).maxListenersCount = m.maxListenersCount
        ∧ (Mono.clear m).listenersCount = 0)
      ∧ (∀ (m : Mono) (ls : List Nat),
        (Mono.clear m).addListener ls = (Mono.mk [] m.maxListenersCount).addListener ls) :=
  ⟨fun _ => ⟨rfl, fun _ => rfl⟩, fun _ _ _ => rfl, fun _ => ⟨rfl, rfl⟩, fun _ _ => rfl⟩

lemma length_filter_bne_add_count (x : Nat) :
    ∀ l : List Nat, (l.filter (fun a => a != x)).length + l.count x = l.length := by
  intro l
  induction l with
  | nil => simp
  | cons a t ih =>
    by_cases h : a = x
    · subst h
      simp [List.filter_cons, List.count_cons]
      omega
    · simp [List.filter_cons, List.count_cons, h, bne_iff_ne.mpr h]
      omega

lemma Mono.addListener_ok_listeners (m : Mono) (ls : List Nat) (m2 : Mono)
    (h : m.addListener ls = .ok m2) : m2.listeners = m.listeners ++ ls := by
  revert h
  simp only [Mono.addListener]
  split
  · split
    · intro h
      exact absurd h (by simp)
    · intro h
      injection h with h2
      subst h2
      rfl
  · intro h
    injection h with h2
    subst h2
    rfl

lemma Mono.runOps_conservation :
    ∀ (ops : List RegOp) (m m2 : Mono) (a r : Nat),
      Mono.runOps m ops = some (m2, a, r) →
      m2.listenersCount + r = m.listenersCount + a := by
  intro ops
  induction ops with
  | nil =>
    intro m m2 a r h
    simp only [Mono.runOps, Option.some.injEq, Prod.mk.injEq] at h
    obtain ⟨h1, h2, h3⟩ := h
    subst h1; subst h2; subst h3
    simp
  | cons op rest ih =>
    intro m m2 a r h
    cases op with
    | reg ls =>
      cases hadd : m.addListener ls with
      | error err =>
        simp only [Mono.runOps, hadd] at h
        exact absurd h (by simp)
      | ok m1 =>
        cases hrest : Mono.runOps m1 rest with
        | none =>
          simp only [Mono.runOps, hadd, hrest] at h
          exact absurd h (by simp)
        | some p =>
          obtain ⟨m3, a1, r1⟩ := p
          simp only [Mono.runOps, hadd, hrest, Option.some.injEq, Prod.mk.injEq] at h
          obtain ⟨h1, h2, h3⟩ := h
          subst h1; subst h2; subst h3
          have hlist := Mono.addListener_ok_listeners m ls m1 hadd
          have hrec := ih _ _ _ _ hrest
          have hlen : m1.listenersCount = m.listenersCount + ls.length := by
            simp [Mono.listenersCount, hlist]
          omega
    | unreg l =>
      cases hrest : Mono.runOps (m.removeListener l) rest with
      | none =>
        simp only [Mono.runOps, hrest] at h
        exact absurd h (by simp)
      | some p =>
        obtain ⟨m3, a1, r1⟩ := p
        simp only [Mono.runOps, hrest, Option.some.injEq, Prod.mk.injEq] at h
        obtain ⟨h1, h2, h3⟩ := h
        subst h1; subst h2; subst h3
        have hrec := ih _ _ _ _ hrest
        have hlen : (m.removeListener l).listenersCount + m.listeners.count l
            = m.listenersCount := by
          simpa [Mono.removeListener, Mono.listenersCount] using
            length_filter_bne_add_count l m.listeners
        omega

lemma EventEmitter.addListener_ok_events (e : EventEmitter) (k : Nat) (ls : List Nat)
    (e2 : EventEmitter) (h : e.addListener k ls = .ok e2) :
    e2.events k = ls ++ e.events k :=
  C3_insertion_order_amended.1 e k ls e2 h

lemma EventEmitter.runOpsK_conservation :
    ∀ (ops : List RegOp) (e e2 : EventEmitter) (k a r : Nat),
      EventEmitter.runOps e k ops = some (e2, a, r) →
      e2.listenerCount k + r = e.listenerCount k + a := by
  intro ops
  induction ops with
  | nil =>
    intro e e2 k a r h
    simp only [EventEmitter.runOps, Option.some.injEq, Prod.mk.injEq] at h
    obtain ⟨h1, h2, h3⟩ := h
    subst h1; subst h2; subst h3
    simp
  | cons op rest ih =>
    intro e e2 k a r h
    cases op with
    | reg ls =>
      cases hadd : e.addListener k ls with
      | error err =>
        simp only [EventEmitter.runOps, hadd] at h
        exact absurd h (by simp)
      | ok e1 =>
        cases hrest : EventEmitter.runOps e1 k rest with
        | none =>
          simp only [EventEmitter.runOps, hadd, hrest] at h
          exact absurd h (by simp)
        | some p =>
          obtain ⟨e3, a1, r1⟩ := p
          simp only [EventEmitter.runOps, hadd, hrest, Option.some.injEq, Prod.mk.injEq] at h
          obtain ⟨h1, h2, h3⟩ := h
          subst h1; subst h2; subst h3
          have hlist := EventEmitter.addListener_ok_events e k ls e1 hadd
          have hrec := ih _ _ _ _ _ hrest
          have hlen : e1.listenerCount k = e.listenerCount k + ls.length := by
            simp [EventEmitter.listenerCount, EventEmitter.getListeners, hlist]
            omega
          omega
    | unreg l =>
      cases hrest : EventEmitter.runOps (e.removeListener k l) k rest with
      | none =>
        simp only [EventEmitter.runOps, hrest] at h
        exact absurd h (by simp)
      | some p =>
        obtain ⟨e3, a1, r1⟩ := p
        simp only [EventEmitter.runOps, hrest, Option.some.injEq, Prod.mk.injEq] at h
        obtain ⟨h1, h2, h3⟩ := h
        subst h1; subst h2; subst h3
        have hrec := ih _ _ _ _ _ hrest
        have hlen : (e.removeListener k l).listenerCount k + (e.events k).count l
            = e.listenerCount k := by
          simpa [EventEmitter.removeListener, EventEmitter.listenerCount,
            EventEmitter.getListeners, upd] using
            length_filter_bne_add_count l (e.events k)
        omega

/-- C5: over any sequence of successful register and unregister steps on a
key starting from an empty registry, the final count equals the number of
listeners added minus the number of occurrences actually removed, where an
unregister deletes every occurrence equal to the listener and is a no-op
without error when it is absent. -/
theorem C5_count_conservation :
    (∀ (mx : Option Nat) (ops : List RegOp) (m2 : Mono) (a r : Nat),
        Mono.runOps (Mono.mk [] mx) ops = some (m2, a, r) → m2.listenersCount + r = a)
      ∧ (∀ (e : EventEmitter) (k : Nat) (ops : List RegOp) (e2 : EventEmitter) (a r : Nat),
        e.events k = [] → EventEmitter.runOps e k ops = some (e2, a, r) →
        e2.listenerCount k + r = a) := by
  constructor
  · intro mx ops m2 a r h
    have hrec := Mono.runOps_conservation ops (Mono.mk [] mx) m2 a r h
    simpa [Mono.listenersCount] using hrec
  · intro e k ops e2 a r hk h
    have hrec := EventEmitter.runOpsK_conservation ops e e2 k a r h
    have h0 : e.listenerCount k = 0 := by
      simp [EventEmitter.listenerCount, EventEmitter.getListeners, hk]
    omega

/-- C5 witness: three adds of which two share one identity, then removing
that identity deletes both occurrences, then one more add: the final count
two plus the two removals equals the four additions. -/
theorem C5_witness :
    (Mono.runOps (Mono.mk [] none) c5ops = some (Mono.mk [2, 3] none, 4, 2)
        ∧ (Mono.mk [2, 3] none).listenersCount + 2 = 4)
      ∧ (e0.events 0 = [] ∧ EventEmitter.runOps e0 0 c5ops = some (c5e2, 4, 2)
        ∧ c5e2.listenerCount 0 + 2 = 4) :=
  ⟨⟨by decide, C5_count_conservation.1 none c5ops (Mono.mk [2, 3] none) 4 2 (by decide)⟩,
   ⟨rfl, rfl, C5_count_conservation.2 e0 0 c5ops c5e2 4 2 rfl rfl⟩⟩

lemma promiseAll_ok_iff :
    ∀ (rs : List (Except Nat Nat)) (vs : List Nat),
      promiseAll rs = .ok vs ↔ rs = vs.map Except.ok := by
  intro rs
  induction rs with
  | nil =>
    intro vs
    cases vs with
    | nil => simp [promiseAll]
    | cons v vt => simp [promiseAll]
  | cons r rest ih =>
    intro vs
    cases r with
    | error err =>
      simp only [promiseAll]
      constructor
      · intro h
        exact absurd h (by simp)
      · intro h
        cases vs with
        | nil => simp at h
        | cons v vt =>
          simp only [List.map_cons, List.cons.injEq] at h
          exact absurd h.1 (by simp)
    | ok v =>
      cases vs with
      | nil =>
        simp only [promiseAll, List.map_nil]
        constructor
        · intro h
          cases hrest : promiseAll rest with
          | ok ws => rw [hrest] at h; simp at h
          | error err => rw [hrest] at h; simp at h
        · intro h
          exact absurd h (by simp)
      | cons w wt =>
        simp only [promiseAll, List.map_cons, List.cons.injEq]
        constructor
        · intro h
          cases hrest : promiseAll rest with
          | ok ws =>
            rw [hrest] at h
            simp only [Except.ok.injEq, List.cons.injEq] at h
            obtain ⟨h1, h2⟩ := h
            exact ⟨congrArg Except.ok h1, (ih wt).mp (h2 ▸ hrest)⟩
          | error err =>
            rw [hrest] at h
            simp at h
        · intro h
          obtain ⟨h1, h2⟩ := h
          have h1v : v = w := by
            simpa using h1
          subst h1v
          rw [(ih wt).mpr h2]

/-- C7: for a fixed listener list and identical arguments the async and
the sync dispatch invoke the listeners over one and the same listener
sequence, and the async dispatch succeeds with exactly the values the sync
results resolve to, in the same order: emit returns ok of a value list
precisely when the emitSync result list is those values, each wrapped as
an immediate success, position by position. -/
theorem C7_sync_async_agree :
    (∀ (interp : Interp) (e : EventEmitter) (k : Nat) (args : List Nat) (vs : List Nat),
        EventEmitter.emit interp e k args = .ok vs
          ↔ EventEmitter.emitSync interp e k args = vs.map Except.ok)
      ∧ (∀ (interp : Interp) (m : Mono) (args : List Nat) (vs : List Nat),
        Mono.emit interp m args = .ok vs
          ↔ Mono.emitSync interp m args = vs.map Except.ok) :=
  ⟨fun interp e k args vs => promiseAll_ok_iff ((e.events k).map (fun l => interp l args)) vs,
   fun interp m args vs => promiseAll_ok_iff (m.listeners.map (fun l => interp l args)) vs⟩

lemma presolve_of_pending (p : Nat → PState) (pid : Nat) (args : List Nat)
    (h : p pid = .pending) : presolve p pid args pid = .resolved args := by
  simp [presolve, h, upd]

lemma presolve_of_resolved (p : Nat → PState) (pid : Nat) (args v : List Nat)
    (h : p pid = .resolved v) : presolve p pid args = p := by
  simp [presolve, h]

lemma presolve_other (p : Nat → PState) (pid q : Nat) (args : List Nat)
    (h : q ≠ pid) : presolve p pid args q = p q := by
  unfold presolve
  cases hp : p pid with
  | pending => simp [upd, h]
  | resolved v => rfl

lemma getD_append_left {α : Type} (d : α) :
    ∀ (l l2 : List α) (i : Nat), i < l.length → (l ++ l2).getD i d = l.getD i d := by
  intro l
  induction l with
  | nil =>
    intro l2 i h
    simp at h
  | cons a t ih =>
    intro l2 i h
    cases i with
    | zero => simp
    | succ j =>
      simp only [List.cons_append, List.getD_cons_succ]
      exact ih l2 j (by simpa using h)

lemma drop_eq_getD_cons {α : Type} (d : α) :
    ∀ (l : List α) (i : Nat), i < l.length → l.drop i = l.getD i d :: l.drop (i + 1) := by
  intro l
  induction l with
  | nil =>
    intro i h
    simp at h
  | cons a t ih =>
    intro i h
    cases i with
    | zero => simp
    | succ j =>
      simp only [List.drop_succ_cons, List.getD_cons_succ]
      exact ih j (by simpa using h)

lemma MonoS.invoke_spec (s : MonoS) (args : List Nat) (l : L)
    (hmax : s.maxListenersCount = none) :
    ∃ s1, s.invoke args l = .ok s1
      ∧ s1.maxListenersCount = none
      ∧ s.hnext ≤ s1.hnext
      ∧ (∀ a, a < s.hnext → ∃ ext, s1.heap a = s.heap a ++ ext)
      ∧ (∀ pid v, s.promises pid = .resolved v → s1.promises pid = .resolved v)
      ∧ (∀ pid, l = .waitCb pid → s.promises pid = .pending →
          s1.promises pid = .resolved args)
      ∧ (∀ pid, l ≠ .waitCb pid → s1.promises pid = s.promises pid) := by
  cases l with
  | base i =>
    refine ⟨s, rfl, hmax, Nat.le_refl _, fun a _ => ⟨[], by simp⟩,
      fun pid v h => h, fun pid hl => ?_, fun pid _ => rfl⟩
    cases hl
  | act eff =>
    cases eff with
    | noop =>
      refine ⟨s, rfl, hmax, Nat.le_refl _, fun a _ => ⟨[], by simp⟩,
        fun pid v h => h, fun pid hl => ?_, fun pid _ => rfl⟩
      cases hl
    | add ids =>
      refine ⟨{ s with heap := upd s.heap s.ref (s.heap s.ref ++ ids.map .base) },
        ?_, hmax, Nat.le_refl _, ?_, fun pid v h => h, fun pid hl => ?_, fun pid _ => rfl⟩
      · simp [MonoS.invoke, MonoS.addListenerS, hmax]
      · intro a _
        by_cases ha : a = s.ref
        · subst ha
          exact ⟨ids.map .base, by simp [upd]⟩
        · exact ⟨[], by simp [upd, ha]⟩
      · cases hl
    | remove i =>
      refine ⟨s.removeListenerS (.base i), rfl, hmax, ?_, ?_,
        fun pid v h => h, fun pid hl => ?_, fun pid _ => rfl⟩
      · simp [MonoS.removeListenerS]
      · intro a ha
        refine ⟨[], ?_⟩
        simp only [MonoS.removeListenerS, upd, List.append_nil]
        rw [if_neg (by omega)]
      · cases hl
  | waitCb pid0 =>
    refine ⟨s.invokeWaitCb pid0 args, rfl, hmax, ?_, ?_, ?_, ?_, ?_⟩
    · simp [MonoS.invokeWaitCb, MonoS.removeListenerS]
    · intro a ha
      refine ⟨[], ?_⟩
      simp only [MonoS.invokeWaitCb, MonoS.removeListenerS, upd, List.append_nil]
      rw [if_neg (by omega)]
    · intro pid v h
      simp only [MonoS.invokeWaitCb, MonoS.removeListenerS]
      by_cases hp : pid = pid0
      · subst hp
        rw [presolve_of_resolved _ _ _ _ h]
        exact h
      · rw [presolve_other _ _ _ _ hp]
        exact h
    · intro pid hl h
      injection hl with hl2
      subst hl2
      simp only [MonoS.invokeWaitCb, MonoS.removeListenerS]
      exact presolve_of_pending _ _ _ h
    · intro pid hl
      have hp : pid ≠ pid0 := by
        intro hc
        subst hc
        exact hl rfl
      simp only [MonoS.invokeWaitCb, MonoS.removeListenerS]
      exact presolve_other _ _ _ _ hp

lemma MonoS.emitSteps_master (args : List Nat) (aid : Nat) (orig : List L) :
    ∀ (k : Nat) (s : MonoS) (i : Nat),
      s.maxListenersCount = none → aid < s.hnext →
      (∃ ext0, s.heap aid = orig ++ ext0) → orig.length = i + k →
      ∃ s2, MonoS.emitSteps args aid s i k = .ok (s2, orig.drop i)
        ∧ s2.maxListenersCount = none
        ∧ s.hnext ≤ s2.hnext
        ∧ (∀ a, a < s.hnext → ∃ ext, s2.heap a = s.heap a ++ ext)
        ∧ (∀ pid v, s.promises pid = .resolved v → s2.promises pid = .resolved v)
        ∧ (∀ pid, s.promises pid = .pending → .waitCb pid ∈ orig.drop i →
            s2.promises pid = .resolved args) := by
  intro k
  induction k with
  | zero =>
    intro s i hmax haid hext hlen
    have hdrop : orig.drop i = [] := List.drop_eq_nil_of_le (by omega)
    refine ⟨s, ?_, hmax, Nat.le_refl _, fun a _ => ⟨[], by simp⟩, fun pid v h => h, ?_⟩
    · simp [MonoS.emitSteps, hdrop]
    · intro pid hp hmem
      rw [hdrop] at hmem
      simp at hmem
  | succ k ih =>
    intro s i hmax haid hext hlen
    obtain ⟨ext0, hheap⟩ := hext
    have hi : i < orig.length := by omega
    have hread : (s.heap aid).getD i (.base 0) = orig.getD i (.base 0) := by
      rw [hheap]
      exact getD_append_left _ orig ext0 i hi
    obtain ⟨s1, hinv, hmax1, hnext1, hheap1, habs1, hwait1, hother1⟩ :=
      MonoS.invoke_spec s args ((s.heap aid).getD i (.base 0)) hmax
    have haid1 : aid < s1.hnext := by omega
    have hext1 : ∃ e1, s1.heap aid = orig ++ e1 := by
      obtain ⟨e1, he1⟩ := hheap1 aid haid
      exact ⟨ext0 ++ e1, by rw [he1, hheap, List.append_assoc]⟩
    obtain ⟨s2, hrec, hmax2, hnext2, hheap2, habs2, hpend2⟩ :=
      ih s1 (i + 1) hmax1 haid1 hext1 (by omega)
    have hdrop : orig.drop i = orig.getD i (.base 0) :: orig.drop (i + 1) :=
      drop_eq_getD_cons _ orig i hi
    refine ⟨s2, ?_, hmax2, Nat.le_trans hnext1 hnext2, ?_, ?_, ?_⟩
    · have hinv2 : s.invoke args (orig.getD i (L.base 0)) = .ok s1 := hread ▸ hinv
      simp only [MonoS.emitSteps, hread, hdrop, hinv2, hrec]
    · intro a ha
      obtain ⟨e1, he1⟩ := hheap1 a ha
      obtain ⟨e2, he2⟩ := hheap2 a (by omega)
      exact ⟨e1 ++ e2, by rw [he2, he1, List.append_assoc]⟩
    · intro pid v h
      exact habs2 pid v (habs1 pid v h)
    · intro pid hp hmem
      rw [hdrop] at hmem
      by_cases hl : (s.heap aid).getD i (.base 0) = .waitCb pid
      · exact habs2 pid args (hwait1 pid hl hp)
      · rcases List.mem_cons.mp hmem with heq | hmem2
        · exact absurd (by rw [hread, ← heq]) hl
        · have hp1 : s1.promises pid = .pending := by
            rw [hother1 pid hl]
            exact hp
          exact hpend2 pid hp1 hmem2

lemma EES.invokeK_spec (s : EES) (l : KL) (hmax : ∀ k2, s.maxL k2 = none) :
    ∃ s1, s.invokeK l = .ok s1
      ∧ (∀ k2, s1.maxL k2 = none)
      ∧ s.hnext ≤ s1.hnext
      ∧ (∀ a, a < s.hnext → s1.heap a = s.heap a) := by
  cases l with
  | base i =>
    exact ⟨s, rfl, hmax, Nat.le_refl _, fun a _ => rfl⟩
  | act k eff =>
    cases eff with
    | noop =>
      exact ⟨s, rfl, hmax, Nat.le_refl _, fun a _ => rfl⟩
    | add ids =>
      refine ⟨s.setFresh k (ids.map .base ++ s.getArr k), ?_, hmax, ?_, ?_⟩
      · simp [EES.invokeK, EES.addListenerK, hmax k]
      · simp [EES.setFresh]
      · intro a ha
        simp only [EES.setFresh, upd]
        rw [if_neg (by omega)]
    | remove i =>
      refine ⟨s.removeListenerK k (.base i), rfl, hmax, ?_, ?_⟩
      · simp [EES.removeListenerK, EES.setFresh]
      · intro a ha
        simp only [EES.removeListenerK, EES.setFresh, upd]
        rw [if_neg (by omega)]

lemma EES.emitStepsK_master (aid : Nat) (orig : List KL) :
    ∀ (k : Nat) (s : EES) (i : Nat),
      (∀ k2, s.maxL k2 = none) → aid < s.hnext → s.heap aid = orig →
      orig.length = i + k →
      ∃ s2, EES.emitStepsK aid s i k = .ok (s2, orig.drop i) := by
  intro k
  induction k with
  | zero =>
    intro s i hmax haid hheap hlen
    have hdrop : orig.drop i = [] := List.drop_eq_nil_of_le (by omega)
    exact ⟨s, by simp [EES.emitStepsK, hdrop]⟩
  | succ k ih =>
    intro s i hmax haid hheap hlen
    have hi : i < orig.length := by omega
    have hread : (s.heap aid).getD i (.base 0) = orig.getD i (.base 0) := by
      rw [hheap]
    obtain ⟨s1, hinv, hmax1, hnext1, hheap1⟩ :=
      EES.invokeK_spec s ((s.heap aid).getD i (.base 0)) hmax
    have haid1 : aid < s1.hnext := by omega
    have hheap1a : s1.heap aid = orig := by
      rw [hheap1 aid haid, hheap]
    obtain ⟨s2, hrec⟩ := ih s1 (i + 1) hmax1 haid1 hheap1a (by omega)
    have hdrop : orig.drop i = orig.getD i (.base 0) :: orig.drop (i + 1) :=
      drop_eq_getD_cons _ orig i hi
    refine ⟨s2, ?_⟩
    have hinv2 : s.invokeK (orig.getD i (KL.base 0)) = .ok s1 := hread ▸ hinv
    simp only [EES.emitStepsK, hread, hdrop, hinv2, hrec]

/-- C8: a dispatch invokes exactly the listener sequence captured when the
dispatch started, in that order, even when invoked listeners re-enter the
emitter and register or remove listeners on the dispatched channel: the
single channel emitter pushes in place but map fixes its range at call
time, and the keyed emitter only ever stores freshly built arrays, so the
captured array is never disturbed.  Stated for emitters with no configured
limit, so that no re-entrant registration can abort the dispatch by a
limit error. -/
theorem C8_dispatch_snapshot :
    (∀ (s : MonoS) (args : List Nat), s.maxListenersCount = none → s.ref < s.hnext →
        ∃ s2, s.emitSyncS args = .ok (s2, s.heap s.ref))
      ∧ (∀ (t : EES) (k aid : Nat) (args : List Nat), (∀ k2, t.maxL k2 = none) →
        t.events k = some aid → aid < t.hnext →
        ∃ t2, t.emitK k args = .ok (t2, t.heap aid)) := by
  constructor
  · intro s args hmax href
    obtain ⟨s2, hrun, _⟩ :=
      MonoS.emitSteps_master args s.ref (s.heap s.ref) (s.heap s.ref).length s 0
        hmax href ⟨[], (List.append_nil _).symm⟩ (by omega)
    refine ⟨s2, ?_⟩
    simpa [MonoS.emitSyncS] using hrun
  · intro t k aid args hmax hev haid
    obtain ⟨t2, hrun⟩ :=
      EES.emitStepsK_master aid (t.heap aid) (t.heap aid).length t 0 hmax haid rfl (by omega)
    refine ⟨t2, ?_⟩
    simp only [EES.emitK, hev]
    simpa using hrun

/-- C8 witness: a two listener array whose first listener appends a fresh
listener during dispatch still traces exactly the captured pair, and a
keyed dispatch whose listener registers on the dispatched key still traces
exactly the captured array. -/
theorem C8_witness :
    (∃ s2, c8s.emitSyncS [] = .ok (s2, c8s.heap c8s.ref))
      ∧ (∃ t2, c8t.emitK 0 [] = .ok (t2, c8t.heap 0)) :=
  ⟨C8_dispatch_snapshot.1 c8s [] rfl (by decide),
   C8_dispatch_snapshot.2 c8t 0 0 [] (fun _ => rfl) rfl (by decide)⟩

/-- C6 is refuted on the source in its timeout clause: after the timer of
a timed wait has fired with no prior emission (the detached fault is
recorded and the promise is still pending), a later emission still
resolves the promise of that wait with its arguments, so an emission after
the timeout does change the outcome of the wait. -/
theorem C6_counterexample :
    c2s2.fault = true
      ∧ c2s2.promises c2pid = .pending
      ∧ c6s3.promises c2pid = .resolved [7] := by
  decide

/-- C6 (amended): a pending wait resolves with exactly the argument tuple
of the next dispatch on the channel, and once resolved it keeps that value
through every later dispatch, so it resolves at most once; but a fired
timeout does not settle the wait at all (it never touches any promise), so
an emission arriving after the timer fired still resolves the future with
the arguments of that emission.  Stated for emitters with no configured
limit, so that the dispatch cannot abort on a limit error. -/
theorem C6_wait_resolution_amended :
    (∀ (s : MonoS) (pid : Nat) (args : List Nat),
        s.maxListenersCount = none → s.ref < s.hnext →
        L.waitCb pid ∈ s.heap s.ref → s.promises pid = .pending →
        ∃ s2 tr, s.emitSyncS args = .ok (s2, tr) ∧ s2.promises pid = .resolved args)
      ∧ (∀ (s : MonoS) (pid : Nat) (v args : List Nat),
        s.maxListenersCount = none → s.ref < s.hnext →
        s.promises pid = .resolved v →
        ∃ s2 tr, s.emitSyncS args = .ok (s2, tr) ∧ s2.promises pid = .resolved v)
      ∧ (∀ (s : MonoS) (pid pid2 : Nat),
        (s.fireTimeout pid2).promises pid = s.promises pid) := by
  refine ⟨?_, ?_, ?_⟩
  · intro s pid args hmax href hmem hp
    obtain ⟨s2, hrun, _, _, _, _, hpend⟩ :=
      MonoS.emitSteps_master args s.ref (s.heap s.ref) (s.heap s.ref).length s 0
        hmax href ⟨[], (List.append_nil _).symm⟩ (by omega)
    refine ⟨s2, s.heap s.ref, ?_, ?_⟩
    · simpa [MonoS.emitSyncS] using hrun
    · exact hpend pid hp (by simpa using hmem)
  · intro s pid v args hmax href hres
    obtain ⟨s2, hrun, _, _, _, habs, _⟩ :=
      MonoS.emitSteps_master args s.ref (s.heap s.ref) (s.heap s.ref).length s 0
        hmax href ⟨[], (List.append_nil _).symm⟩ (by omega)
    refine ⟨s2, s.heap s.ref, ?_, habs pid v hres⟩
    simpa [MonoS.emitSyncS] using hrun
  · intro s pid pid2
    unfold MonoS.fireTimeout
    split <;> rfl

/-- C6 witness: a fresh emitter after one wait call resolves that wait
with the arguments of the next dispatch. -/
theorem C6_witness :
    ∃ s2 tr, c2s1.emitSyncS [3] = .ok (s2, tr) ∧ s2.promises 0 = .resolved [3] :=
  C6_wait_resolution_amended.1 c2s1 0 [3] rfl (by decide) (by decide) (by decide)

/-- C2 fails on the source exactly as the specification flags: when the
timer of a timed wait fires with no prior emission, the setTimeout
callback throws, a fault detached from every observer; the promise of the
wait stays pending instead of failing with a Timeout, and the one shot
listener stays registered, so the listener count still shows the leaked
registration. -/
theorem C2_timeout_code_behavior :
    c2s2.fault = true
      ∧ c2s2.promises c2pid = .pending
      ∧ c2s2.listenersCountS = 1
      ∧ c2s2.listS = [.waitCb c2pid] := by
  decide

/-- C9 is refuted on the source: getListeners hands out the stored array
itself, and pushing onto that array from outside raises the listener
count the registry reports, so the registry state is not insulated from
mutation of the returned sequence. -/
theorem C9_counterexample :
    c9s.getListenersK 0 = some 0
      ∧ c9s.listenerCountK 0 = 1
      ∧ (c9s.pushOnArr 0 (.base 2)).listenerCountK 0 = 2 := by
  decide

/-- C9 (amended): both accessors return the live internal array rather
than a copy or read-only view: for a present key the keyed getListeners
returns exactly the stored array, and an external push onto it, or onto
the array the single channel getter returns, raises the listener count
the registry reports by one (only the keyed accessor on an absent key
hands out a fresh empty array). -/
theorem C9_live_list_amended :
    (∀ (s : EES) (k aid : Nat) (l : KL), s.events k = some aid →
        s.getListenersK k = some aid
          ∧ (s.pushOnArr aid l).listenerCountK k = s.listenerCountK k + 1)
      ∧ (∀ (s : MonoS) (l : L),
        (s.pushOnArr s.listenersGetter l).listenersCountS = s.listenersCountS + 1) := by
  constructor
  · intro s k aid l hev
    refine ⟨hev, ?_⟩
    simp [EES.pushOnArr, EES.listenerCountK, EES.getArr, hev, upd]
  · intro s l
    simp [MonoS.pushOnArr, MonoS.listenersGetter, MonoS.listenersCountS, MonoS.listS, upd]

/-- C9 witness: pushing onto the array returned for the present key of a
concrete registry raises its reported count by one, and likewise for the
single channel getter of a fresh emitter. -/
theorem C9_witness :
    (c9s.getListenersK 0 = some 0
        ∧ (c9s.pushOnArr 0 (.base 2)).listenerCountK 0 = c9s.listenerCountK 0 + 1)
      ∧ (MonoS.init.pushOnArr MonoS.init.listenersGetter (.base 9)).listenersCountS
          = MonoS.init.listenersCountS + 1 :=
  ⟨C9_live_list_amended.1 c9s 0 0 (.base 2) rfl,
   C9_live_list_amended.2 MonoS.init (.base 9)⟩
